import Mathlib

/-!
FastAuthService: the parameterized-query builder and the token flows

A shallow embedding of `internal/repositories/base_repo/base_repo.go` and of the
refresh flow of `internal/handlers/refresh_tokens.go`.

* Go strings are Lean strings; `fmt.Sprintf` with `%s` and `%d` is string
  concatenation with the decimal rendering `Nat.repr`.
* A Go `interface{}` is a `Value`; the constructor `Value.nil` is the nil interface.
* A Go `map[string]interface{}` that is ranged over is the list of its entries in the
  order the `range` loop visits them (the keys of a map are distinct).  A pointer to
  such a map is an `Option`.
* The connection pool and the helpers of other packages are parameters.
-/

namespace FastAuthService

/-! ## Data model -/

/-- A Go `interface{}` value as it is bound to a statement or read from a row. -/
inductive Value where
  | nil
  | str (s : String)
  | int (i : Int)
  | bool (b : Bool)
  deriving DecidableEq, Repr

/-- The error values of package `exceptions` that the sources construct or switch on,
and the plain errors built with `fmt.Errorf`. -/
inductive Err where
  | ErrDbConflict (Message : String)
  | ErrInvalidEntity (Message : String)
  | ErrNotFound (Message : String)
  | ErrMultipleEntries (Message : String)
  | ErrUnauthorized (Message : String)
  | Errorf (text : String)
  deriving DecidableEq, Repr

/-- The entries of a `map[string]interface{}` in the order a `range` loop visits them. -/
abbrev Filters := List (String × Value)

/-- One record: a `map[string]interface{}` from column name to value. -/
abbrev Record := List (String × Value)

/-- Go `len` of a slice that may be nil. -/
def len {α : Type} : Option (List α) → Nat
  | none => 0
  | some l => l.length

/-- Go `append(s, x)` on a slice that may be nil. -/
def append {α : Type} : Option (List α) → α → Option (List α)
  | none, x => some [x]
  | some l, x => some (l ++ [x])

/-- Go `m[k] = v` on a map kept as an association list. -/
def mapSet (m : Record) (k : String) (v : Value) : Record :=
  if m.any (fun e => e.1 == k) then m.map (fun e => if e.1 == k then (k, v) else e)
  else m ++ [(k, v)]

/-! ## Package `strings` -/

/-- Go `strings.TrimSuffix`. -/
def TrimSuffix (s suffix : String) : String :=
  if suffix.data.isSuffixOf s.data then
    String.mk (s.data.take (s.data.length - suffix.data.length))
  else s

/-- Go `strings.Join`. -/
def Join : List String → String → String
  | [], _ => ""
  | [a], _ => a
  | a :: b :: rest, sep => a ++ sep ++ Join (b :: rest) sep

/-! ## `base_repo.go` -/

/-- The `for i := 1; i < n; i++` loop of `placeholders`; the last argument counts the
iterations that remain. -/
def placeholdersLoop (buf : String) (i : Nat) : Nat → String
  | 0 => buf
  | r + 1 => placeholdersLoop (buf ++ (", $" ++ Nat.repr (i + 1))) (i + 1) r

/-- `placeholders(n int) string`. -/
def placeholders (n : Int) : String :=
  if n < 1 then ""
  else placeholdersLoop "$1" 1 (n.toNat - 1)

/-- The statement `CreateOne` builds. -/
def CreateOneSQL (tableName : String) (fields : List String) (values : List Value) : String :=
  "INSERT INTO " ++ tableName ++ " (" ++ Join fields ", " ++ ") VALUES ("
    ++ placeholders (values.length : Int) ++ ") RETURNING id;"

/-- The `range` loop of `ParseSQLFilters` over the entries still to visit. -/
def parseLoop : Filters → String → List Value → String × List Value
  | [], filterStr, args => (filterStr, args)
  | (field, value) :: rest, filterStr, args =>
    if value = Value.nil then
      parseLoop rest (filterStr ++ (" " ++ field ++ " IS NULL AND")) args
    else
      parseLoop rest
        (filterStr ++ (" " ++ field ++ " = $" ++ Nat.repr (args ++ [value]).length ++ " AND"))
        (args ++ [value])

/-- `ParseSQLFilters(filters *map[string]interface{}) (string, []interface{}, error)`. -/
def ParseSQLFilters (filters : Option Filters) : String × List Value × Option Err :=
  match filters with
  | none => ("", [], none)
  | some m =>
    if m.length > 0 then
      let r := parseLoop m "" []
      (TrimSuffix r.1 " AND", r.2, none)
    else ("", [], none)

/-- What `base_repo.go` uses from other packages: the text of an error, the helper
`utils.UpdateExceptionMsg`, and the connection pool.  `Query` answers a statement and
its arguments with a driver error text or with the rows; a row is an error text (when
`rows.Values()` fails) or its columns paired with its values.  `QueryRow` answers with
a driver error text or the scanned `id`. -/
structure Deps where
  Error : Err → String
  UpdateExceptionMsg : String → Err → Err
  Query : String → List Value → Except String (List (Except String (List (String × Value))))
  QueryRow : String → List Value → Except String Int

/-- `CreateOne(tableName, fields, values) (int, error)`. -/
def CreateOne (d : Deps) (tableName : String) (fields : List String) (values : List Value) :
    Int × Option Err :=
  match d.QueryRow (CreateOneSQL tableName fields values) values with
  | .error e =>
    (0, some (Err.ErrDbConflict ("could not insert into " ++ tableName ++ " table: " ++ e)))
  | .ok id => (id, none)

/-- The `if filterStr != ""` step of `GetMany`. -/
def whereStep (sql filterStr : String) : String :=
  if filterStr ≠ "" then sql ++ (" WHERE" ++ filterStr) else sql

/-- The `if orderBy != nil` step of `GetMany` on the statement and the arguments. -/
def orderStep (orderBy orderingDirection : Option String) (q : String × List Value) :
    String × List Value :=
  match orderBy with
  | none => q
  | some o =>
    let args := q.2 ++ [Value.str o]
    let sql := q.1 ++ (" ORDER BY " ++ o)
    match orderingDirection with
    | none => (sql, args)
    | some dir =>
      (sql ++ (" $" ++ Nat.repr (args ++ [Value.str dir]).length), args ++ [Value.str dir])

/-- The `if limit != nil` step of `GetMany`. -/
def limitStep (limit : Option Int) (q : String × List Value) : String × List Value :=
  match limit with
  | none => q
  | some n =>
    (q.1 ++ (" LIMIT $" ++ Nat.repr (q.2 ++ [Value.int n]).length), q.2 ++ [Value.int n])

/-- The `if offset != nil` step of `GetMany`. -/
def offsetStep (offset : Option Int) (q : String × List Value) : String × List Value :=
  match offset with
  | none => q
  | some n =>
    (q.1 ++ (" OFFSET $" ++ Nat.repr (q.2 ++ [Value.int n]).length), q.2 ++ [Value.int n])

/-- The statement and the arguments `GetMany` hands to `database.Pool.Query`, or the
error it returns before it queries. -/
def GetManyQuery (d : Deps) (tableName : String) (limit offset : Option Int)
    (orderBy orderingDirection : Option String) (filters : Option Filters) :
    Except Err (String × List Value) :=
  match ParseSQLFilters filters with
  | (_, _, some err) =>
    .error (Err.ErrInvalidEntity ("failed to validate filters: " ++ d.Error err))
  | (filterStr, args, none) =>
    .ok (offsetStep offset (limitStep limit (orderStep orderBy orderingDirection
      (whereStep ("SELECT * FROM " ++ tableName) filterStr, args))))

/-- The `item` map `GetMany` fills from the field descriptions and values of one row. -/
def rowItem (row : List (String × Value)) : Record :=
  row.foldl (fun item fd => mapSet item fd.1 fd.2) []

/-- The `for rows.Next()` loop of `GetMany`. -/
def rowsLoop : List (Except String (List (String × Value))) → Option (List Record) →
    Except Err (Option (List Record))
  | [], results => .ok results
  | .error e :: _, _ => .error (Err.Errorf ("could not get row values: " ++ e))
  | .ok row :: rest, results => rowsLoop rest (append results (rowItem row))

/-- `GetMany(tableName, limit, offset, orderBy, orderingDirection, filters)`. -/
def GetMany (d : Deps) (tableName : String) (limit offset : Option Int)
    (orderBy orderingDirection : Option String) (filters : Option Filters) :
    Except Err (Option (List Record)) :=
  match GetManyQuery d tableName limit offset orderBy orderingDirection filters with
  | .error err => .error err
  | .ok (sql, args) =>
    match d.Query sql args with
    | .error e =>
      .error (Err.Errorf ("could not get records from " ++ tableName ++ " table: " ++ e))
    | .ok rows => rowsLoop rows none

/-- The part of `GetOne` after the call of `GetMany`; `none` is the runtime failure of
indexing an empty slice. -/
def expectOne (d : Deps) (got : Except Err (Option (List Record))) :
    Option (Except Err Record) :=
  match got with
  | .error err => some (.error (d.UpdateExceptionMsg "could not perform GetMany method" err))
  | .ok records =>
    if (records.isSome && len records == 0) || len records == 0 then
      some (.error (Err.ErrNotFound "got no records according filters."))
    else if len records > 1 then
      some (.error
        (Err.ErrMultipleEntries "got multiple records according filters, but expected 1."))
    else
      match records with
      | some (r :: _) => some (.ok r)
      | _ => none

/-- `GetOne(tableName, filters)`. -/
def GetOne (d : Deps) (tableName : String) (filters : Option Filters) :
    Option (Except Err Record) :=
  expectOne d (GetMany d tableName none none none none filters)

/-! ## `refresh_tokens.go` -/

/-- Go `int64` wrap-around. -/
def wrap64 (x : Int) : Int := (x + 2 ^ 63) % 2 ^ 64 - 2 ^ 63

/-- What `updateUserSessionAndGenerateTokens` uses from other packages.  A Go call that
returns a pointer and an error is a pair of options. -/
structure RefreshDeps (Request Session TokenResponse Cookie DeviceInfo Time : Type) where
  Now : Time
  Add : Time → Int → Time
  RefreshTokenLifeMinutes : Int
  OptimizedUpdateWithUserChecking : Time → String → Option (List Session) × Option Err
  GetDeviceInfo : Request → DeviceInfo
  GenerateAccessToken : Int → DeviceInfo → Option TokenResponse × Option Err
  AccessToken : TokenResponse → String
  GenerateRefreshCookies : Int → String → String → Time → Option Cookie × Option Err

/-- The expiry `time.Now().Add(time.Minute * time.Duration(RefreshTokenLifeMinutes))`
for the session and for the new refresh token; a minute is 60000000000 nanoseconds. -/
def newExpiresAt {Request Session TokenResponse Cookie DeviceInfo Time : Type}
    (d : RefreshDeps Request Session TokenResponse Cookie DeviceInfo Time) : Time :=
  d.Add d.Now (wrap64 (60000000000 * wrap64 d.RefreshTokenLifeMinutes))

/-- `updateUserSessionAndGenerateTokens(r, sessionToken, userId)`; the three results are
the access token, the cookie and the error, and `none` is a nil-pointer failure. -/
def updateUserSessionAndGenerateTokens {Request Session TokenResponse Cookie DeviceInfo Time : Type}
    (d : RefreshDeps Request Session TokenResponse Cookie DeviceInfo Time)
    (r : Request) (sessionToken : String) (userId : Int) :
    Option (Option TokenResponse × Option Cookie × Option Err) :=
  let expiresAt := newExpiresAt d
  match d.OptimizedUpdateWithUserChecking expiresAt sessionToken with
  | (_, some (Err.ErrNotFound _)) =>
    some (none, none, some (Err.ErrUnauthorized "Session for user was not found."))
  | (_, some err) => some (none, none, some err)
  | (none, none) => none
  | (some sessions, none) =>
    if sessions.length ≠ 1 then
      some (none, none, some (Err.Errorf "Found unexpected user session, please log in again."))
    else
      let deviceInfo := d.GetDeviceInfo r
      match d.GenerateAccessToken userId deviceInfo with
      | (_, some err) => some (none, none, some err)
      | (none, none) => none
      | (some accessToken, none) =>
        match d.GenerateRefreshCookies userId (d.AccessToken accessToken) sessionToken expiresAt with
        | (_, some err) => some (none, none, some err)
        | (cookies, none) => some (some accessToken, cookies, none)

/-- The collaborators of a refresh whose rotation finds no session. -/
def refreshNotFound : RefreshDeps Unit Unit String String Unit Int where
  Now := 0
  Add := fun t n => t + n
  RefreshTokenLifeMinutes := 60
  OptimizedUpdateWithUserChecking := fun _ _ => (none, some (Err.ErrNotFound "no session"))
  GetDeviceInfo := fun _ => ()
  GenerateAccessToken := fun _ _ => (some "access", none)
  AccessToken := fun t => t
  GenerateRefreshCookies := fun _ _ _ _ => (some "cookie", none)

/-! ## Reading placeholders off a statement -/

/-- The positional placeholders of a text, left to right: every `$` that is directly
followed by decimal digits, together with the longest run of digits after it. -/
def placeholderTokens : List Char → List String
  | [] => []
  | c :: cs =>
    if c = '$' ∧ cs.takeWhile Char.isDigit ≠ [] then
      String.mk ('$' :: cs.takeWhile Char.isDigit) :: placeholderTokens cs
    else placeholderTokens cs

/-- The placeholders `$a`, ..., `$(a + n - 1)`. -/
def dollars (a n : Nat) : List String :=
  (List.range' a n).map (fun i => "$" ++ Nat.repr i)

/-- A text that does not go on with a digit: it is empty or starts with a non-digit. -/
def stopsDigits (l : List Char) : Prop := ∀ c ∈ l.head?, c.isDigit = false

/-! ## The fragment in the words of the specification -/

/-- The per-entry predicates of a filter mapping, `k` arguments being bound already: a
nil value gives `field IS NULL`, any other value gives `field = $j` where `j` is the
number of arguments once the value is bound. -/
def predicates : Filters → Nat → List String
  | [], _ => []
  | (field, value) :: rest, k =>
    if value = Value.nil then (" " ++ field ++ " IS NULL") :: predicates rest k
    else (" " ++ field ++ " = $" ++ Nat.repr (k + 1)) :: predicates rest (k + 1)

/-- The non-nil values of a filter mapping in iteration order. -/
def boundValues (m : Filters) : List Value :=
  (m.map Prod.snd).filter (fun v => v ≠ Value.nil)

/-- The number of entries of a filter mapping whose value is nil. -/
def nilCount (m : Filters) : Nat :=
  (m.filter (fun e => e.2 = Value.nil)).length

/-- The placeholders of texts read one after the other. -/
def namesTokens : List String → List String
  | [] => []
  | name :: rest => placeholderTokens name.data ++ namesTokens rest

/-- The placeholders of the fragment, entry by entry: those inside the field name, then,
for a non-nil value, the placeholder of the value, `k` arguments being bound already. -/
def fragmentTokens : Filters → Nat → List String
  | [], _ => []
  | (field, value) :: rest, k =>
    if value = Value.nil then placeholderTokens field.data ++ fragmentTokens rest k
    else placeholderTokens field.data ++ ("$" ++ Nat.repr (k + 1)) :: fragmentTokens rest (k + 1)

/-! ## Reading keywords off a statement -/

/-- The characters of a word of a statement: letters, digits and the underscore. -/
def isWordChar (c : Char) : Bool := c.isAlphanum || c == '_'

/-- The words of a text, left to right: its longest runs of word characters; `cur` is
the run read so far. -/
def wordsFrom (cur : List Char) : List Char → List (List Char)
  | [] => if cur = [] then [] else [cur]
  | c :: cs =>
    if isWordChar c then wordsFrom (cur ++ [c]) cs
    else (if cur = [] then [] else [cur]) ++ wordsFrom [] cs

/-- A word that is the keyword `WHERE`, in upper or lower case letters. -/
def isWhere : List Char → Bool
  | [a, b, c, d, e] =>
    (a == 'W' || a == 'w') && (b == 'H' || b == 'h') && (c == 'E' || c == 'e') &&
      (d == 'R' || d == 'r') && (e == 'E' || e == 'e')
  | _ => false

/-- A text has a `WHERE` clause: one of its words is the keyword `WHERE`. -/
def mentionsWhere (s : List Char) : Bool := (wordsFrom [] s).any isWhere

/-- A text that does not go on with a word character: it is empty or starts with a
character that is none. -/
def stopsWord (l : List Char) : Prop := ∀ c ∈ l.head?, isWordChar c = false

/-- What the ordering of a statement adds to its `WHERE` keywords. -/
def orderMentionsWhere (orderBy : Option String) : Bool :=
  match orderBy with
  | none => false
  | some o => mentionsWhere o.data

/-- The number a run of decimal digits stands for. -/
def decValue (l : List Char) : Nat :=
  l.foldl (fun a c => 10 * a + (c.toNat - 48)) 0

/-- A text whose last character is not `D`. -/
def endsOff (l : List Char) : Prop := ∃ pre c, l = pre ++ [c] ∧ c ≠ 'D'

/-- What of a filter mapping the statement may depend on: the field names in iteration
order and which of the values are nil. -/
def shape (m : Filters) : List (String × Bool) :=
  m.map (fun e => (e.1, decide (e.2 = Value.nil)))

/-- The number of arguments the ordering step binds. -/
def orderCount (orderBy orderingDirection : Option String) : Nat :=
  match orderBy, orderingDirection with
  | none, _ => 0
  | some _, none => 1
  | some _, some _ => 2

/-- The number of arguments the limit step binds. -/
def limitCount (limit : Option Int) : Nat :=
  match limit with
  | none => 0
  | some _ => 1

/-- The ordering clause of a statement whose filters bind `k` arguments, written out. -/
def orderClause (k : Nat) (orderBy orderingDirection : Option String) : String :=
  match orderBy, orderingDirection with
  | none, _ => ""
  | some o, none => " ORDER BY " ++ o
  | some o, some _ => " ORDER BY " ++ o ++ " $" ++ Nat.repr (k + 2)

/-- The limit clause with the placeholder `$j`, written out. -/
def limitClause (j : Nat) (limit : Option Int) : String :=
  match limit with
  | none => ""
  | some _ => " LIMIT $" ++ Nat.repr j

/-- The offset clause with the placeholder `$j`, written out. -/
def offsetClause (j : Nat) (offset : Option Int) : String :=
  match offset with
  | none => ""
  | some _ => " OFFSET $" ++ Nat.repr j

/-- The ordering, limit and offset clauses of a statement whose filters bind `k`
arguments, written out. -/
def tailClauses (k : Nat) (orderBy orderingDirection : Option String)
    (limit offset : Option Int) : String :=
  orderClause k orderBy orderingDirection
    ++ limitClause (k + orderCount orderBy orderingDirection + 1) limit
    ++ offsetClause (k + orderCount orderBy orderingDirection + limitCount limit + 1) offset

/-- Texts put one after the other. -/
def concatAll : List String → String
  | [] => ""
  | a :: rest => a ++ concatAll rest


/-! ## Decimal rendering and the text primitives -/

theorem digitChar_isDigit (n : Nat) : (Nat.digitChar (n % 10)).isDigit = true := by
  have h : n % 10 < 10 := Nat.mod_lt _ (by decide)
  interval_cases n % 10 <;> decide

theorem toDigitsCore_isDigit (fuel : Nat) : ∀ (n : Nat) (ds : List Char),
    (∀ c ∈ ds, c.isDigit = true) → ∀ c ∈ Nat.toDigitsCore 10 fuel n ds, c.isDigit = true := by
  induction fuel with
  | zero => intro n ds h c hc; exact h c (by simpa [Nat.toDigitsCore] using hc)
  | succ f ih =>
    intro n ds h c hc
    have hd : ∀ c ∈ Nat.digitChar (n % 10) :: ds, c.isDigit = true := by
      intro c hc
      rcases List.mem_cons.mp hc with rfl | hc
      · exact digitChar_isDigit n
      · exact h c hc
    simp only [Nat.toDigitsCore] at hc
    split at hc
    · exact hd c hc
    · exact ih _ _ hd c hc

theorem toDigitsCore_ne_nil (fuel : Nat) : ∀ (n : Nat) (ds : List Char),
    ds ≠ [] ∨ 0 < fuel → Nat.toDigitsCore 10 fuel n ds ≠ [] := by
  induction fuel with
  | zero =>
    intro n ds h
    rcases h with h | h
    · simpa [Nat.toDigitsCore] using h
    · exact absurd h (by decide)
  | succ f ih =>
    intro n ds _
    simp only [Nat.toDigitsCore]
    split
    · exact List.cons_ne_nil _ _
    · exact ih _ _ (Or.inl (List.cons_ne_nil _ _))

theorem repr_isDigit (n : Nat) : ∀ c ∈ (Nat.repr n).data, c.isDigit = true := by
  intro c hc
  have hc' : c ∈ Nat.toDigitsCore 10 (n + 1) n [] := by
    simpa [Nat.repr, Nat.toDigits, List.asString] using hc
  exact toDigitsCore_isDigit _ _ _ (by simp) c hc'

theorem repr_ne_nil (n : Nat) : (Nat.repr n).data ≠ [] := by
  have h := toDigitsCore_ne_nil (n + 1) n [] (Or.inr (Nat.succ_pos n))
  simpa [Nat.repr, Nat.toDigits, List.asString] using h

theorem repr_no_dollar (n : Nat) : '$' ∉ (Nat.repr n).data := by
  intro h
  have := repr_isDigit n _ h
  exact absurd this (by decide)

theorem takeWhile_repr (n : Nat) (rest : List Char) (h : stopsDigits rest) :
    ((Nat.repr n).data ++ rest).takeWhile Char.isDigit = (Nat.repr n).data := by
  have hd := repr_isDigit n
  generalize (Nat.repr n).data = ds at hd
  induction ds with
  | nil =>
    cases rest with
    | nil => rfl
    | cons c cs =>
      have : c.isDigit = false := h c (by simp)
      simp [List.takeWhile, this]
  | cons d ds ih =>
    have h1 : d.isDigit = true := hd d (by simp)
    have h2 := ih (fun c hc => hd c (List.mem_cons_of_mem _ hc))
    simp [List.takeWhile, h1, h2]

theorem placeholderTokens_skip (a b : List Char) (h : '$' ∉ a) :
    placeholderTokens (a ++ b) = placeholderTokens b := by
  induction a with
  | nil => rfl
  | cons c cs ih =>
    have hc : c ≠ '$' := fun e => h (by simp [e])
    have hcs : '$' ∉ cs := fun e => h (List.mem_cons_of_mem _ e)
    simp [placeholderTokens, hc, ih hcs]

theorem placeholderTokens_nil_of_no_dollar (a : List Char) (h : '$' ∉ a) :
    placeholderTokens a = [] := by
  have := placeholderTokens_skip a [] h
  simpa [placeholderTokens] using this

theorem placeholderTokens_dollar (n : Nat) (rest : List Char) (h : stopsDigits rest) :
    placeholderTokens ('$' :: ((Nat.repr n).data ++ rest)) =
      ("$" ++ Nat.repr n) :: placeholderTokens rest := by
  have ht := takeWhile_repr n rest h
  have hne := repr_ne_nil n
  have hs := placeholderTokens_skip (Nat.repr n).data rest (repr_no_dollar n)
  rw [placeholderTokens]
  simp only [ht, hs]
  simp [hne]
  apply String.ext
  simp [String.data_append]

theorem takeWhile_append_stops (a b : List Char) (h : stopsDigits b) :
    (a ++ b).takeWhile Char.isDigit = a.takeWhile Char.isDigit := by
  induction a with
  | nil =>
    cases b with
    | nil => rfl
    | cons c cs =>
      have : c.isDigit = false := h c (by simp)
      simp [List.takeWhile, this]
  | cons d ds ih =>
    by_cases hd : d.isDigit = true
    · simp [List.takeWhile, hd, ih]
    · simp [List.takeWhile, hd]

theorem placeholderTokens_append (a b : List Char) (h : stopsDigits b) :
    placeholderTokens (a ++ b) = placeholderTokens a ++ placeholderTokens b := by
  induction a with
  | nil => rfl
  | cons c cs ih =>
    have ht := takeWhile_append_stops cs b h
    show placeholderTokens (c :: (cs ++ b)) = placeholderTokens (c :: cs) ++ placeholderTokens b
    by_cases hc : c = '$' ∧ cs.takeWhile Char.isDigit ≠ []
    · have hc' : c = '$' ∧ (cs ++ b).takeWhile Char.isDigit ≠ [] := by rw [ht]; exact hc
      simp only [placeholderTokens, if_pos hc, if_pos hc', ht, ih, List.cons_append]
    · have hc' : ¬ (c = '$' ∧ (cs ++ b).takeWhile Char.isDigit ≠ []) := by rw [ht]; exact hc
      simp only [placeholderTokens, if_neg hc, if_neg hc', ih]

theorem stopsDigits_append (c : Char) (s x : List Char) (hs : s.head? = some c)
    (hc : c.isDigit = false) : stopsDigits (s ++ x) := by
  intro y hy
  cases s with
  | nil => simp at hs
  | cons d ds =>
    simp at hs hy
    subst hs
    subst hy
    exact hc

theorem stopsDigits_of_head (c : Char) (s : List Char) (hs : s.head? = some c)
    (hc : c.isDigit = false) : stopsDigits s := by
  have := stopsDigits_append c s [] hs hc
  rwa [List.append_nil] at this

theorem stopsDigits_nil : stopsDigits [] := by
  intro y hy
  simp at hy


/-! ## `strings.Join`, `strings.TrimSuffix` and the loop of `ParseSQLFilters` -/

theorem TrimSuffix_append (x suffix : String) : TrimSuffix (x ++ suffix) suffix = x := by
  have h : suffix.data.isSuffixOf (x ++ suffix).data = true := by
    rw [List.isSuffixOf_iff_suffix, String.data_append]
    exact List.suffix_append _ _
  unfold TrimSuffix
  rw [if_pos h]
  apply String.ext
  simp [String.data_append]

theorem Join_cons_data (p : String) (ps : List String) (sep : String) :
    (Join (p :: ps) sep).data =
      p.data ++ (if ps = [] then [] else sep.data ++ (Join ps sep).data) := by
  cases ps with
  | nil => simp [Join]
  | cons b rest => simp [Join, String.data_append]

theorem concatAll_sep (sep : String) : ∀ ps : List String, ps ≠ [] →
    concatAll (ps.map (fun p => p ++ sep)) = Join ps sep ++ sep := by
  intro ps
  induction ps with
  | nil => intro h; exact absurd rfl h
  | cons a rest ih =>
    intro _
    cases rest with
    | nil =>
      apply String.ext
      simp [concatAll, Join, String.data_append]
    | cons b rest =>
      have := ih (List.cons_ne_nil _ _)
      simp only [List.map_cons] at this
      simp only [List.map_cons, concatAll, Join]
      simp only [concatAll] at this
      rw [this]
      apply String.ext
      simp [String.data_append]

theorem parseLoop_eq (m : Filters) : ∀ (s : String) (args : List Value),
    parseLoop m s args =
      (s ++ concatAll ((predicates m args.length).map (fun p => p ++ " AND")),
        args ++ boundValues m) := by
  induction m with
  | nil =>
    intro s args
    simp only [parseLoop, predicates, boundValues, List.map_nil, concatAll, List.filter_nil,
      List.append_nil]
    congr 1
    apply String.ext
    simp [String.data_append]
  | cons e rest ih =>
    intro s args
    obtain ⟨field, value⟩ := e
    by_cases hv : value = Value.nil
    · simp only [parseLoop, predicates, hv, if_true, ih, List.map_cons, concatAll]
      refine Prod.ext ?_ ?_
      · apply String.ext
        simp [String.data_append]
      · simp [boundValues]
    · simp only [parseLoop, predicates, hv, if_false, ih, List.map_cons, concatAll,
        List.length_append, List.length_singleton]
      refine Prod.ext ?_ ?_
      · apply String.ext
        simp [String.data_append]
      · simp [boundValues, hv]

theorem predicates_length (m : Filters) : ∀ k, (predicates m k).length = m.length := by
  induction m with
  | nil => intro k; rfl
  | cons e rest ih =>
    intro k
    obtain ⟨field, value⟩ := e
    by_cases hv : value = Value.nil <;> simp [predicates, hv, ih]

theorem predicates_ne_nil (m : Filters) (h : m ≠ []) (k : Nat) : predicates m k ≠ [] := by
  intro hp
  have := predicates_length m k
  rw [hp] at this
  exact h (List.length_eq_zero.mp this.symm)

theorem ParseSQLFilters_some (m : Filters) (h : m ≠ []) :
    ParseSQLFilters (some m) = (Join (predicates m 0) " AND", boundValues m, none) := by
  have hl : m.length > 0 := List.length_pos.mpr h
  simp only [ParseSQLFilters, hl, if_true, parseLoop_eq, List.length_nil, List.nil_append]
  rw [concatAll_sep " AND" _ (predicates_ne_nil m h 0)]
  congr 1
  have : "" ++ (Join (predicates m 0) " AND" ++ " AND") = Join (predicates m 0) " AND" ++ " AND" := by
    apply String.ext
    simp [String.data_append]
  rw [this, TrimSuffix_append]

theorem boundValues_length (m : Filters) : (boundValues m).length + nilCount m = m.length := by
  induction m with
  | nil => rfl
  | cons e rest ih =>
    obtain ⟨field, value⟩ := e
    by_cases hv : value = Value.nil
    · simp [boundValues, nilCount, hv] at ih ⊢
      omega
    · simp [boundValues, nilCount, hv] at ih ⊢
      omega


/-! ## Decimal rendering is injective -/

theorem digitChar_value (n : Nat) : (Nat.digitChar (n % 10)).toNat - 48 = n % 10 := by
  have h : n % 10 < 10 := Nat.mod_lt _ (by decide)
  interval_cases n % 10 <;> decide

theorem decValue_append_singleton (l : List Char) (c : Char) :
    decValue (l ++ [c]) = 10 * decValue l + (c.toNat - 48) := by
  simp [decValue, List.foldl_append]

theorem toDigitsCore_value (fuel : Nat) : ∀ (n : Nat) (ds : List Char), n < fuel →
    ∃ l, Nat.toDigitsCore 10 fuel n ds = l ++ ds ∧ decValue l = n := by
  induction fuel with
  | zero => intro n ds h; exact absurd h (Nat.not_lt_zero _)
  | succ f ih =>
    intro n ds h
    simp only [Nat.toDigitsCore]
    split
    · next h0 =>
      refine ⟨[Nat.digitChar (n % 10)], rfl, ?_⟩
      have := decValue_append_singleton [] (Nat.digitChar (n % 10))
      simp only [List.nil_append] at this
      rw [this, digitChar_value]
      simp only [decValue, List.foldl_nil]
      omega
    · next h0 =>
      have hlt : n / 10 < f := by omega
      obtain ⟨l, hl, hv⟩ := ih (n / 10) (Nat.digitChar (n % 10) :: ds) hlt
      refine ⟨l ++ [Nat.digitChar (n % 10)], ?_, ?_⟩
      · rw [hl]; simp
      · rw [decValue_append_singleton, hv, digitChar_value]
        omega

theorem decValue_repr (n : Nat) : decValue (Nat.repr n).data = n := by
  obtain ⟨l, hl, hv⟩ := toDigitsCore_value (n + 1) n [] (Nat.lt_succ_self n)
  have : (Nat.repr n).data = l := by
    simpa [Nat.repr, Nat.toDigits, List.asString] using hl
  rw [this, hv]

theorem repr_injective {a b : Nat} (h : Nat.repr a = Nat.repr b) : a = b := by
  have := congrArg (fun s => decValue s.data) h
  simpa [decValue_repr] using this

theorem dollars_nodup (a n : Nat) : (dollars a n).Nodup := by
  unfold dollars
  refine (List.nodup_range' a n).map ?_
  intro i j hij
  apply repr_injective
  have h := congrArg String.data hij
  simp only [String.data_append] at h
  exact String.ext (List.append_cancel_left h)


theorem boundValues_append (a b : Filters) :
    boundValues (a ++ b) = boundValues a ++ boundValues b := by
  simp [boundValues]

theorem boundValues_cons (e : String × Value) (l : Filters) :
    boundValues (e :: l) = (if e.2 = Value.nil then [] else [e.2]) ++ boundValues l := by
  by_cases hv : e.2 = Value.nil <;> simp [boundValues, hv]

/-! ## The placeholders of the filter fragment -/

theorem and_data : " AND".data = [' ', 'A', 'N', 'D'] := rfl

theorem joinTail_stops (ps : List String) :
    stopsDigits (if ps = [] then [] else " AND".data ++ (Join ps " AND").data) := by
  intro c hc
  split at hc
  · simp at hc
  · rw [and_data] at hc
    simp at hc
    subst hc
    decide

theorem joinTail_tokens (ps : List String) :
    placeholderTokens (if ps = [] then [] else " AND".data ++ (Join ps " AND").data) =
      placeholderTokens (Join ps " AND").data := by
  split
  · next h => subst h; rfl
  · exact placeholderTokens_skip _ _ (by decide)

theorem placeholderTokens_Join_predicates (m : Filters) : ∀ k,
    placeholderTokens (Join (predicates m k) " AND").data = fragmentTokens m k := by
  induction m with
  | nil => intro k; rfl
  | cons e rest ih =>
    intro k
    obtain ⟨field, value⟩ := e
    by_cases hv : value = Value.nil
    · subst hv
      have hp : (Join (predicates ((field, Value.nil) :: rest) k) " AND").data =
          " ".data ++ (field.data ++ (" IS NULL".data ++
            (if predicates rest k = [] then []
              else " AND".data ++ (Join (predicates rest k) " AND").data))) := by
        simp [predicates, Join_cons_data, String.data_append]
      rw [hp, placeholderTokens_skip " ".data _ (by decide),
        placeholderTokens_append field.data _
          (stopsDigits_append ' ' " IS NULL".data _ rfl (by decide)),
        placeholderTokens_skip " IS NULL".data _ (by decide), joinTail_tokens, ih k]
      simp [fragmentTokens]
    · have hp : (Join (predicates ((field, value) :: rest) k) " AND").data =
          " ".data ++ (field.data ++ (" = ".data ++ ('$' :: ((Nat.repr (k + 1)).data ++
            (if predicates rest (k + 1) = [] then []
              else " AND".data ++ (Join (predicates rest (k + 1)) " AND").data))))) := by
        simp [predicates, hv, Join_cons_data, String.data_append]
      rw [hp, placeholderTokens_skip " ".data _ (by decide),
        placeholderTokens_append field.data _
          (stopsDigits_append ' ' " = ".data _ rfl (by decide)),
        placeholderTokens_skip " = ".data _ (by decide),
        placeholderTokens_dollar _ _ (joinTail_stops _), joinTail_tokens, ih (k + 1)]
      simp [fragmentTokens, hv]

theorem fragmentTokens_length (m : Filters) : ∀ k,
    (fragmentTokens m k).length = (namesTokens (m.map Prod.fst)).length + (boundValues m).length := by
  induction m with
  | nil => intro k; rfl
  | cons e rest ih =>
    intro k
    obtain ⟨field, value⟩ := e
    by_cases hv : value = Value.nil
    · simp [fragmentTokens, namesTokens, boundValues_cons, hv, ih k]
      omega
    · simp [fragmentTokens, namesTokens, boundValues_cons, hv, ih (k + 1)]
      omega

theorem namesTokens_eq_nil (names : List String) :
    namesTokens names = [] ↔ ∀ name ∈ names, placeholderTokens name.data = [] := by
  induction names with
  | nil => simp [namesTokens]
  | cons a rest ih => simp [namesTokens, ih]

theorem fragmentTokens_of_clean (m : Filters) : ∀ k,
    (∀ e ∈ m, placeholderTokens e.1.data = []) →
    fragmentTokens m k = dollars (k + 1) (boundValues m).length := by
  induction m with
  | nil => intro k _; rfl
  | cons e rest ih =>
    intro k hd
    obtain ⟨field, value⟩ := e
    have hf : placeholderTokens field.data = [] := hd (field, value) (by simp)
    have hrest : ∀ e ∈ rest, placeholderTokens e.1.data = [] :=
      fun e he => hd e (List.mem_cons_of_mem _ he)
    by_cases hv : value = Value.nil
    · simp [fragmentTokens, boundValues_cons, hv, hf, ih k hrest]
    · simp [fragmentTokens, boundValues_cons, hv, hf, ih (k + 1) hrest, dollars,
        List.range'_succ]

theorem fragmentTokens_eq_dollars_iff (m : Filters) (k : Nat) :
    fragmentTokens m k = dollars (k + 1) (boundValues m).length ↔
      ∀ e ∈ m, placeholderTokens e.1.data = [] := by
  constructor
  · intro h
    have hl := fragmentTokens_length m k
    rw [h] at hl
    simp only [dollars, List.length_map, List.length_range'] at hl
    have h0 : namesTokens (m.map Prod.fst) = [] := List.length_eq_zero.mp (by omega)
    intro e he
    exact (namesTokens_eq_nil _).mp h0 e.1 (List.mem_map_of_mem _ he)
  · exact fragmentTokens_of_clean m k

/-! ## The shape of the predicates -/

theorem predicates_getElem? (m : Filters) : ∀ (k i : Nat) (h : i < m.length),
    (predicates m k)[i]? = some
      (if m[i].2 = Value.nil then " " ++ m[i].1 ++ " IS NULL"
       else " " ++ m[i].1 ++ " = $"
          ++ Nat.repr (k + (boundValues (m.take i)).length + 1)) := by
  induction m with
  | nil => intro k i h; exact absurd h (Nat.not_lt_zero _)
  | cons e rest ih =>
    intro k i h
    obtain ⟨field, value⟩ := e
    cases i with
    | zero =>
      by_cases hv : value = Value.nil <;> simp [predicates, hv, boundValues]
    | succ i =>
      have h' : i < rest.length := Nat.lt_of_succ_lt_succ h
      by_cases hv : value = Value.nil
      · have := ih k i h'
        simp only [predicates, hv, if_true, List.getElem?_cons_succ, this, List.take_succ_cons,
          List.getElem_cons_succ]
        simp [boundValues]
      · have := ih (k + 1) i h'
        simp only [predicates, hv, if_false, List.getElem?_cons_succ, this, List.take_succ_cons,
          List.getElem_cons_succ]
        have hl : k + 1 + (boundValues (List.take i rest)).length + 1 =
            k + (boundValues ((field, value) :: List.take i rest)).length + 1 := by
          simp [boundValues, hv]
          omega
        rw [hl]

theorem boundValues_getElem? (m : Filters) (i : Nat) (h : i < m.length)
    (hv : m[i].2 ≠ Value.nil) :
    (boundValues m)[(boundValues (m.take i)).length]? = some m[i].2 := by
  have hsplit : m = m.take i ++ m[i] :: m.drop (i + 1) := by
    have := List.take_append_drop i m
    rw [List.drop_eq_getElem_cons h] at this
    exact this.symm
  have hb : boundValues m =
      boundValues (m.take i) ++ m[i].2 :: boundValues (m.drop (i + 1)) := by
    conv_lhs => rw [hsplit]
    rw [boundValues_append, boundValues_cons, if_neg hv]
    rfl
  rw [hb, List.getElem?_append_right (Nat.le_refl _), Nat.sub_self]
  exact List.getElem?_cons_zero

theorem boundValues_take_succ (m : Filters) (i : Nat) (h : i < m.length) :
    boundValues (m.take (i + 1)) = boundValues (m.take i) ++
      (if m[i].2 = Value.nil then [] else [m[i].2]) := by
  rw [← List.take_concat_get' m i h, boundValues_append, boundValues_cons]
  simp [boundValues]


/-! ## The fragment never ends in the connective -/

theorem endsOff_append (a : List Char) {b : List Char} (h : endsOff b) : endsOff (a ++ b) := by
  obtain ⟨pre, c, rfl, hc⟩ := h
  exact ⟨a ++ pre, c, by simp, hc⟩

theorem endsOff_repr (n : Nat) : endsOff (Nat.repr n).data := by
  have hne := repr_ne_nil n
  refine ⟨(Nat.repr n).data.dropLast, (Nat.repr n).data.getLast hne,
    (List.dropLast_append_getLast hne).symm, ?_⟩
  intro h
  have hd := repr_isDigit n _ (List.getLast_mem hne)
  rw [h] at hd
  exact absurd hd (by decide)

theorem endsOff_predicates (m : Filters) : ∀ k, ∀ p ∈ predicates m k, endsOff p.data := by
  induction m with
  | nil => intro k p hp; simp [predicates] at hp
  | cons e rest ih =>
    intro k p hp
    obtain ⟨field, value⟩ := e
    by_cases hv : value = Value.nil
    · simp only [predicates, hv, if_true, List.mem_cons] at hp
      rcases hp with rfl | hp
      · rw [String.data_append]
        exact endsOff_append _ ⟨[' ', 'I', 'S', ' ', 'N', 'U', 'L'], 'L', rfl, by decide⟩
      · exact ih k p hp
    · simp only [predicates, hv, if_false, List.mem_cons] at hp
      rcases hp with rfl | hp
      · rw [String.data_append]
        exact endsOff_append _ (endsOff_repr _)
      · exact ih (k + 1) p hp

theorem endsOff_Join (sep : String) : ∀ ps : List String, ps ≠ [] →
    (∀ p ∈ ps, endsOff p.data) → endsOff (Join ps sep).data := by
  intro ps
  induction ps with
  | nil => intro h; exact absurd rfl h
  | cons a rest ih =>
    intro _ hall
    cases rest with
    | nil => simpa [Join] using hall a (by simp)
    | cons b rest =>
      have := ih (List.cons_ne_nil _ _) (fun p hp => hall p (List.mem_cons_of_mem _ hp))
      simp only [Join, String.data_append]
      exact endsOff_append _ this

theorem not_suffix_of_endsOff {l : List Char} (h : endsOff l) : ¬ (" AND".data <:+ l) := by
  obtain ⟨pre, c, rfl, hc⟩ := h
  rintro ⟨t, ht⟩
  have e : " AND".data = [' ', 'A', 'N'] ++ ['D'] := rfl
  rw [e, ← List.append_assoc] at ht
  have := List.append_inj_right' ht rfl
  simp at this
  exact hc this.symm


/-! ## The statement of `GetMany` -/

theorem ParseSQLFilters_error (filters : Option Filters) : (ParseSQLFilters filters).2.2 = none := by
  unfold ParseSQLFilters
  cases filters with
  | none => rfl
  | some m => dsimp only; split <;> rfl

theorem GetManyQuery_eq (d : Deps) (tableName : String) (limit offset : Option Int)
    (orderBy orderingDirection : Option String) (filters : Option Filters) :
    GetManyQuery d tableName limit offset orderBy orderingDirection filters =
      .ok (offsetStep offset (limitStep limit (orderStep orderBy orderingDirection
        (whereStep ("SELECT * FROM " ++ tableName) (ParseSQLFilters filters).1,
          (ParseSQLFilters filters).2.1)))) := by
  have h := ParseSQLFilters_error filters
  unfold GetManyQuery
  generalize ParseSQLFilters filters = r at h
  obtain ⟨a, b, c⟩ := r
  dsimp only at h
  subst h
  rfl

theorem steps_eq (q : String × List Value) (limit offset : Option Int)
    (orderBy orderingDirection : Option String) :
    (offsetStep offset (limitStep limit (orderStep orderBy orderingDirection q))).1 =
      q.1 ++ tailClauses q.2.length orderBy orderingDirection limit offset := by
  obtain ⟨sql, args⟩ := q
  cases orderBy <;> cases orderingDirection <;> cases limit <;> cases offset <;>
    (apply String.ext
     simp [offsetStep, limitStep, orderStep, tailClauses, orderClause, limitClause,
       offsetClause, orderCount, limitCount,
       String.data_append, Nat.add_assoc])

theorem steps_args (q : String × List Value) (limit offset : Option Int)
    (orderBy orderingDirection : Option String) :
    (offsetStep offset (limitStep limit (orderStep orderBy orderingDirection q))).2 =
      q.2 ++ (match orderBy, orderingDirection with
        | none, _ => []
        | some o, none => [Value.str o]
        | some o, some dir => [Value.str o, Value.str dir])
      ++ (match limit with | none => [] | some n => [Value.int n])
      ++ (match offset with | none => [] | some n => [Value.int n]) := by
  obtain ⟨sql, args⟩ := q
  cases orderBy <;> cases orderingDirection <;> cases limit <;> cases offset <;>
    simp [offsetStep, limitStep, orderStep]

theorem Join_predicates_ne_empty (m : Filters) (hm : m ≠ []) :
    Join (predicates m 0) " AND" ≠ "" := by
  intro h
  obtain ⟨pre, c, hl, _⟩ :=
    endsOff_Join " AND" _ (predicates_ne_nil m hm 0) (endsOff_predicates m 0)
  rw [h] at hl
  have : ("" : String).data = [] := rfl
  rw [this] at hl
  simp at hl

theorem GetManyQuery_sql (d : Deps) (tableName : String) (limit offset : Option Int)
    (orderBy orderingDirection : Option String) (filters : Option Filters) :
    (GetManyQuery d tableName limit offset orderBy orderingDirection filters).map Prod.fst =
      .ok (whereStep ("SELECT * FROM " ++ tableName) (ParseSQLFilters filters).1 ++
        tailClauses (ParseSQLFilters filters).2.1.length orderBy orderingDirection limit offset) := by
  rw [GetManyQuery_eq]
  simp only [Except.map, steps_eq]

theorem predicates_shape (m₁ : Filters) : ∀ (m₂ : Filters) (k : Nat), shape m₁ = shape m₂ →
    predicates m₁ k = predicates m₂ k ∧ (boundValues m₁).length = (boundValues m₂).length := by
  induction m₁ with
  | nil =>
    intro m₂ k h
    cases m₂ with
    | nil => exact ⟨rfl, rfl⟩
    | cons e rest => simp [shape] at h
  | cons e₁ rest₁ ih =>
    intro m₂ k h
    cases m₂ with
    | nil => simp [shape] at h
    | cons e₂ rest₂ =>
      obtain ⟨f₁, v₁⟩ := e₁
      obtain ⟨f₂, v₂⟩ := e₂
      simp only [shape, List.map_cons, List.cons.injEq, Prod.mk.injEq, decide_eq_decide] at h
      obtain ⟨⟨hf, hv⟩, hrest⟩ := h
      subst hf
      by_cases h1 : v₁ = Value.nil
      · have h2 : v₂ = Value.nil := hv.mp h1
        obtain ⟨hp, hb⟩ := ih rest₂ k hrest
        simp [predicates, h1, h2, hp, boundValues_cons, hb]
      · have h2 : ¬ v₂ = Value.nil := fun e => h1 (hv.mpr e)
        obtain ⟨hp, hb⟩ := ih rest₂ (k + 1) hrest
        simp [predicates, h1, h2, hp, boundValues_cons, hb]

theorem ParseSQLFilters_shape (f₁ f₂ : Option Filters) (h : f₁.map shape = f₂.map shape) :
    (ParseSQLFilters f₁).1 = (ParseSQLFilters f₂).1 ∧
    (ParseSQLFilters f₁).2.1.length = (ParseSQLFilters f₂).2.1.length := by
  cases f₁ with
  | none =>
    cases f₂ with
    | none => exact ⟨rfl, rfl⟩
    | some m₂ => simp at h
  | some m₁ =>
    cases f₂ with
    | none => simp at h
    | some m₂ =>
      simp only [Option.map_some', Option.some.injEq] at h
      by_cases h1 : m₁ = []
      · subst h1
        have h2 : m₂ = [] := by
          cases m₂ with
          | nil => rfl
          | cons e rest => simp [shape] at h
        subst h2
        exact ⟨rfl, rfl⟩
      · have h2 : m₂ ≠ [] := by
          rintro rfl
          cases m₁ with
          | nil => exact h1 rfl
          | cons e rest => simp [shape] at h
        obtain ⟨hp, hb⟩ := predicates_shape m₁ m₂ 0 h
        rw [ParseSQLFilters_some m₁ h1, ParseSQLFilters_some m₂ h2]
        exact ⟨by simp only [hp], hb⟩

theorem rowsLoop_error (rows : List (Except String (List (String × Value)))) :
    ∀ (results : Option (List Record)) (e : Err), rowsLoop rows results = .error e →
      ∃ t, e = Err.Errorf t := by
  induction rows with
  | nil => intro results e h; simp [rowsLoop] at h
  | cons r rest ih =>
    intro results e h
    cases r with
    | error t =>
      simp only [rowsLoop, Except.error.injEq] at h
      exact ⟨_, h.symm⟩
    | ok row => exact ih _ e (by simpa [rowsLoop] using h)


/-! ## The loop of `placeholders` -/

theorem Join_cons_concatAll (sep x : String) : ∀ xs : List String,
    Join (x :: xs) sep = x ++ concatAll (xs.map (fun y => sep ++ y)) := by
  intro xs
  induction xs generalizing x with
  | nil =>
    apply String.ext
    simp [Join, concatAll, String.data_append]
  | cons y ys ih =>
    simp only [Join, List.map_cons, concatAll, ih y]
    apply String.ext
    simp [String.data_append]

theorem placeholdersLoop_eq (r : Nat) : ∀ (buf : String) (i : Nat),
    placeholdersLoop buf i r =
      buf ++ concatAll ((List.range' (i + 1) r).map (fun j => ", " ++ ("$" ++ Nat.repr j))) := by
  induction r with
  | zero =>
    intro buf i
    apply String.ext
    simp [placeholdersLoop, concatAll, String.data_append]
  | succ r ih =>
    intro buf i
    simp only [placeholdersLoop, ih, List.range'_succ, List.map_cons, concatAll]
    apply String.ext
    have e1 : ", $".data = [',', ' ', '$'] := rfl
    have e2 : ", ".data = [',', ' '] := rfl
    have e3 : "$".data = ['$'] := rfl
    simp [String.data_append, e1, e2, e3]

theorem placeholders_eq_Join (n : Int) (h : 1 ≤ n) :
    placeholders n = Join (dollars 1 n.toNat) ", " := by
  have hn : ¬ n < 1 := not_lt.mpr h
  obtain ⟨k, hk⟩ : ∃ k, n.toNat = k + 1 := ⟨n.toNat - 1, by omega⟩
  simp only [placeholders, hn, if_false, hk, Nat.add_sub_cancel, placeholdersLoop_eq]
  simp only [dollars, List.range'_succ, List.map_cons, Join_cons_concatAll, List.map_map]
  rfl

theorem commaTail_stops (ps : List String) :
    stopsDigits (if ps = [] then [] else ", ".data ++ (Join ps ", ").data) := by
  intro c hc
  have e : ", ".data = [',', ' '] := rfl
  split at hc
  · simp at hc
  · rw [e] at hc
    simp at hc
    subst hc
    decide

theorem commaTail_tokens (ps : List String) :
    placeholderTokens (if ps = [] then [] else ", ".data ++ (Join ps ", ").data) =
      placeholderTokens (Join ps ", ").data := by
  split
  · next h => subst h; rfl
  · exact placeholderTokens_skip _ _ (by decide)

theorem placeholderTokens_dollars (n : Nat) : ∀ a,
    placeholderTokens (Join (dollars a n) ", ").data = dollars a n := by
  induction n with
  | zero => intro a; rfl
  | succ n ih =>
    intro a
    have hd : dollars a (n + 1) = ("$" ++ Nat.repr a) :: dollars (a + 1) n := by
      simp [dollars, List.range'_succ]
    have e : ("$" ++ Nat.repr a).data = '$' :: (Nat.repr a).data := by
      simp [String.data_append]
    rw [hd, Join_cons_data, e, List.cons_append,
      placeholderTokens_dollar _ _ (commaTail_stops _), commaTail_tokens, ih]

theorem placeholderTokens_placeholders (k : Nat) :
    placeholderTokens (placeholders (k : Int)).data = dollars 1 k := by
  cases k with
  | zero => rfl
  | succ k =>
    rw [placeholders_eq_Join _ (by omega), placeholderTokens_dollars]
    rfl

theorem placeholderTokens_Join_names (names : List String) :
    placeholderTokens (Join names ", ").data = namesTokens names := by
  induction names with
  | nil => rfl
  | cons a rest ih =>
    rw [Join_cons_data, placeholderTokens_append _ _ (commaTail_stops _), commaTail_tokens, ih]
    rfl

theorem placeholderTokens_CreateOneSQL (tableName : String) (fields : List String)
    (values : List Value) :
    placeholderTokens (CreateOneSQL tableName fields values).data =
      placeholderTokens tableName.data ++ namesTokens fields ++ dollars 1 values.length := by
  have hp : (CreateOneSQL tableName fields values).data =
      "INSERT INTO ".data ++ (tableName.data ++ (" (".data ++ ((Join fields ", ").data ++
        (") VALUES (".data ++ ((placeholders (values.length : Int)).data ++
          ") RETURNING id;".data))))) := by
    simp [CreateOneSQL, String.data_append]
  rw [hp, placeholderTokens_skip "INSERT INTO ".data _ (by decide),
    placeholderTokens_append tableName.data _
      (stopsDigits_append ' ' " (".data _ rfl (by decide)),
    placeholderTokens_skip " (".data _ (by decide),
    placeholderTokens_append (Join fields ", ").data _
      (stopsDigits_append ')' ") VALUES (".data _ rfl (by decide)),
    placeholderTokens_skip ") VALUES (".data _ (by decide),
    placeholderTokens_append (placeholders (values.length : Int)).data _
      (stopsDigits_of_head ')' ") RETURNING id;".data rfl (by decide)),
    placeholderTokens_Join_names, placeholderTokens_placeholders]
  have : placeholderTokens ") RETURNING id;".data = [] := by decide
  rw [this, List.append_nil, List.append_assoc]

theorem placeholderTokens_CreateOneSQL_iff (tableName : String) (fields : List String)
    (values : List Value) :
    placeholderTokens (CreateOneSQL tableName fields values).data = dollars 1 values.length ↔
      placeholderTokens tableName.data = [] ∧
        ∀ name ∈ fields, placeholderTokens name.data = [] := by
  rw [placeholderTokens_CreateOneSQL, ← namesTokens_eq_nil]
  constructor
  · intro h
    have hl := congrArg List.length h
    simp only [List.length_append, dollars, List.length_map, List.length_range'] at hl
    exact ⟨List.length_eq_zero.mp (by omega), List.length_eq_zero.mp (by omega)⟩
  · rintro ⟨h1, h2⟩
    rw [h1, h2]
    rfl


/-! ## The keywords of a statement -/

theorem stopsWord_nil : stopsWord [] := by
  intro y hy
  simp at hy

theorem stopsWord_cons (c : Char) (l : List Char) (hc : isWordChar c = false) :
    stopsWord (c :: l) := by
  intro y hy
  simp at hy
  subst hy
  exact hc

theorem stopsWord_append {x y : List Char} (hx : stopsWord x) (hy : stopsWord y) :
    stopsWord (x ++ y) := by
  cases x with
  | nil => exact hy
  | cons c cs =>
    intro z hz
    exact hx z (by simpa using hz)

theorem wordsFrom_append (a : List Char) : ∀ (cur b : List Char), stopsWord b →
    wordsFrom cur (a ++ b) = wordsFrom cur a ++ wordsFrom [] b := by
  induction a with
  | nil =>
    intro cur b hb
    cases b with
    | nil => simp [wordsFrom]
    | cons c cs =>
      have hc : isWordChar c = false := hb c (by simp)
      simp [wordsFrom, hc]
  | cons d ds ih =>
    intro cur b hb
    by_cases hd : isWordChar d = true
    · simp [wordsFrom, hd, ih _ b hb]
    · simp [wordsFrom, hd, ih _ b hb]

theorem mentionsWhere_append (a b : List Char) (hb : stopsWord b) :
    mentionsWhere (a ++ b) = (mentionsWhere a || mentionsWhere b) := by
  simp [mentionsWhere, wordsFrom_append a [] b hb, List.any_append]

theorem mentionsWhere_cons (c : Char) (l : List Char) (hc : isWordChar c = false) :
    mentionsWhere (c :: l) = mentionsWhere l := by
  simp [mentionsWhere, wordsFrom, hc]

theorem wordsFrom_word (l : List Char) : ∀ cur : List Char,
    (∀ c ∈ l, isWordChar c = true) →
    wordsFrom cur l = if cur ++ l = [] then [] else [cur ++ l] := by
  induction l with
  | nil => intro cur _; simp [wordsFrom]
  | cons d ds ih =>
    intro cur h
    have hd : isWordChar d = true := h d (by simp)
    have hds : ∀ c ∈ ds, isWordChar c = true := fun c hc => h c (List.mem_cons_of_mem _ hc)
    simp [wordsFrom, hd, ih _ hds]

theorem isWordChar_of_isDigit {c : Char} (h : c.isDigit = true) : isWordChar c = true := by
  simp [isWordChar, Char.isAlphanum, h]

theorem isWhere_digits (l : List Char) (h : ∀ c ∈ l, c.isDigit = true) : isWhere l = false := by
  match l, h with
  | [a, b, c, d, e], h =>
    have ha : a.isDigit = true := h a (by simp)
    have h1 : (a == 'W') = false := by
      rw [beq_eq_false_iff_ne]
      rintro rfl
      exact absurd ha (by decide)
    have h2 : (a == 'w') = false := by
      rw [beq_eq_false_iff_ne]
      rintro rfl
      exact absurd ha (by decide)
    simp [isWhere, h1, h2]
  | [], _ => rfl
  | [_], _ => rfl
  | [_, _], _ => rfl
  | [_, _, _], _ => rfl
  | [_, _, _, _], _ => rfl
  | _ :: _ :: _ :: _ :: _ :: _ :: _, _ => rfl

theorem mentionsWhere_repr (n : Nat) : mentionsWhere (Nat.repr n).data = false := by
  have hd := repr_isDigit n
  have hw := wordsFrom_word (Nat.repr n).data [] (fun c hc => isWordChar_of_isDigit (hd c hc))
  simp only [mentionsWhere, hw, List.nil_append]
  split
  · rfl
  · simp [isWhere_digits _ hd]

theorem mentionsWhere_placeholder (kw : List Char) (j : Nat)
    (hk : mentionsWhere kw = false) :
    mentionsWhere (kw ++ (' ' :: '$' :: (Nat.repr j).data)) = false := by
  rw [mentionsWhere_append _ _ (stopsWord_cons ' ' _ (by decide)),
    mentionsWhere_cons ' ' _ (by decide), mentionsWhere_cons '$' _ (by decide),
    mentionsWhere_repr, hk]
  rfl

theorem stopsWord_of_head (c : Char) (s : List Char) (hs : s.head? = some c)
    (hc : isWordChar c = false) : stopsWord s := by
  intro y hy
  rw [hs] at hy
  simp at hy
  subst hy
  exact hc

theorem limitClause_where (j : Nat) (limit : Option Int) :
    stopsWord (limitClause j limit).data ∧ mentionsWhere (limitClause j limit).data = false := by
  cases limit with
  | none => exact ⟨stopsWord_nil, rfl⟩
  | some n =>
    have e : (limitClause j (some n)).data = " LIMIT".data ++ (' ' :: '$' :: (Nat.repr j).data) := by
      simp [limitClause, String.data_append]
    rw [e]
    exact ⟨stopsWord_append (stopsWord_of_head ' ' _ rfl (by decide)) (stopsWord_cons ' ' _ (by decide)),
      mentionsWhere_placeholder _ _ (by decide)⟩

theorem offsetClause_where (j : Nat) (offset : Option Int) :
    stopsWord (offsetClause j offset).data ∧
      mentionsWhere (offsetClause j offset).data = false := by
  cases offset with
  | none => exact ⟨stopsWord_nil, rfl⟩
  | some n =>
    have e : (offsetClause j (some n)).data =
        " OFFSET".data ++ (' ' :: '$' :: (Nat.repr j).data) := by
      simp [offsetClause, String.data_append]
    rw [e]
    exact ⟨stopsWord_append (stopsWord_of_head ' ' _ rfl (by decide)) (stopsWord_cons ' ' _ (by decide)),
      mentionsWhere_placeholder _ _ (by decide)⟩

theorem orderClause_where (k : Nat) (orderBy orderingDirection : Option String) :
    stopsWord (orderClause k orderBy orderingDirection).data ∧
      mentionsWhere (orderClause k orderBy orderingDirection).data =
        orderMentionsWhere orderBy := by
  cases orderBy with
  | none => exact ⟨stopsWord_nil, rfl⟩
  | some o =>
    cases orderingDirection with
    | none =>
      have e : (orderClause k (some o) none).data = " ORDER BY".data ++ (' ' :: o.data) := by
        simp [orderClause, String.data_append]
      rw [e]
      refine ⟨stopsWord_append (stopsWord_of_head ' ' _ rfl (by decide))
        (stopsWord_cons ' ' _ (by decide)), ?_⟩
      have hw : mentionsWhere " ORDER BY".data = false := by decide
      rw [mentionsWhere_append _ _ (stopsWord_cons ' ' _ (by decide)), hw, Bool.false_or,
        mentionsWhere_cons ' ' _ (by decide)]
      rfl
    | some dir =>
      have e : (orderClause k (some o) (some dir)).data =
          " ORDER BY".data ++ (' ' :: (o.data ++ (' ' :: '$' :: (Nat.repr (k + 2)).data))) := by
        simp [orderClause, String.data_append]
      rw [e]
      refine ⟨stopsWord_append (stopsWord_of_head ' ' _ rfl (by decide))
        (stopsWord_cons ' ' _ (by decide)), ?_⟩
      have hw : mentionsWhere " ORDER BY".data = false := by decide
      rw [mentionsWhere_append _ _ (stopsWord_cons ' ' _ (by decide)), hw, Bool.false_or,
        mentionsWhere_cons ' ' _ (by decide),
        mentionsWhere_append _ _ (stopsWord_cons ' ' _ (by decide)),
        mentionsWhere_cons ' ' _ (by decide), mentionsWhere_cons '$' _ (by decide),
        mentionsWhere_repr, Bool.or_false]
      rfl

theorem tailClauses_where (k : Nat) (orderBy orderingDirection : Option String)
    (limit offset : Option Int) :
    stopsWord (tailClauses k orderBy orderingDirection limit offset).data ∧
      mentionsWhere (tailClauses k orderBy orderingDirection limit offset).data =
        orderMentionsWhere orderBy := by
  obtain ⟨a1, a2⟩ := orderClause_where k orderBy orderingDirection
  obtain ⟨b1, b2⟩ := limitClause_where (k + orderCount orderBy orderingDirection + 1) limit
  obtain ⟨c1, c2⟩ := offsetClause_where
    (k + orderCount orderBy orderingDirection + limitCount limit + 1) offset
  simp only [tailClauses, String.data_append]
  refine ⟨stopsWord_append (stopsWord_append a1 b1) c1, ?_⟩
  rw [mentionsWhere_append _ _ c1, mentionsWhere_append _ _ b1, a2, b2, c2]
  simp

theorem mentionsWhere_select (tableName : String) (rest : List Char) (hr : stopsWord rest) :
    mentionsWhere (("SELECT * FROM " ++ tableName).data ++ rest) =
      (mentionsWhere tableName.data || mentionsWhere rest) := by
  have e : ("SELECT * FROM " ++ tableName).data ++ rest =
      "SELECT * FROM".data ++ (' ' :: (tableName.data ++ rest)) := by
    simp [String.data_append]
  have hw : mentionsWhere "SELECT * FROM".data = false := by decide
  rw [e, mentionsWhere_append _ _ (stopsWord_cons ' ' _ (by decide)), hw, Bool.false_or,
    mentionsWhere_cons ' ' _ (by decide), mentionsWhere_append _ _ hr]

theorem mentionsWhere_unfiltered (tableName : String) (orderBy orderingDirection : Option String)
    (limit offset : Option Int) :
    mentionsWhere ("SELECT * FROM " ++ tableName ++
        tailClauses 0 orderBy orderingDirection limit offset).data =
      (mentionsWhere tableName.data || orderMentionsWhere orderBy) := by
  obtain ⟨h1, h2⟩ := tailClauses_where 0 orderBy orderingDirection limit offset
  rw [String.data_append, mentionsWhere_select _ _ h1, h2]

theorem Join_predicates_head (m : Filters) (hm : m ≠ []) (k : Nat) :
    (Join (predicates m k) " AND").data.head? = some ' ' := by
  cases m with
  | nil => exact absurd rfl hm
  | cons e rest =>
    obtain ⟨field, value⟩ := e
    by_cases hv : value = Value.nil <;>
      simp [predicates, hv, Join_cons_data, String.data_append]

theorem mentionsWhere_filtered (tableName : String) (m : Filters) (hm : m ≠ [])
    (orderBy orderingDirection : Option String) (limit offset : Option Int) :
    mentionsWhere ("SELECT * FROM " ++ tableName ++ (" WHERE" ++ (ParseSQLFilters (some m)).1) ++
        tailClauses (boundValues m).length orderBy orderingDirection limit offset).data =
      true := by
  have hh : stopsWord (ParseSQLFilters (some m)).1.data := by
    rw [ParseSQLFilters_some m hm]
    exact stopsWord_of_head ' ' _ (Join_predicates_head m hm 0) (by decide)
  obtain ⟨h1, _⟩ := tailClauses_where (boundValues m).length orderBy orderingDirection
    limit offset
  have e : ("SELECT * FROM " ++ tableName ++ (" WHERE" ++ (ParseSQLFilters (some m)).1) ++
        tailClauses (boundValues m).length orderBy orderingDirection limit offset).data =
      ("SELECT * FROM " ++ tableName).data ++ (" WHERE".data ++
        ((ParseSQLFilters (some m)).1.data ++
          (tailClauses (boundValues m).length orderBy orderingDirection limit offset).data)) := by
    simp only [String.data_append, List.append_assoc]
  have hs : stopsWord (" WHERE".data ++ ((ParseSQLFilters (some m)).1.data ++
      (tailClauses (boundValues m).length orderBy orderingDirection limit offset).data)) :=
    stopsWord_append (stopsWord_of_head ' ' _ rfl (by decide)) (stopsWord_append hh h1)
  have hw : mentionsWhere " WHERE".data = true := by decide
  rw [e, mentionsWhere_select _ _ hs, mentionsWhere_append _ _ (stopsWord_append hh h1), hw]
  simp


/-! ## Claims about `ParseSQLFilters` -/

/-- C1 (as amended): for every filter mapping with `n` entries of which `k` have a nil
value, the argument list `ParseSQLFilters` returns has length `n - k`; and when no field
name contains a `$` directly followed by a decimal digit, the fragment holds exactly the
placeholders `$1`, ..., `$(n-k)`, read left to right, each once.  That condition on the
field names is also necessary. -/
theorem ParseSQLFilters_placeholders (m : Filters) :
    (ParseSQLFilters (some m)).2.1.length = m.length - nilCount m ∧
    ((∀ e ∈ m, placeholderTokens e.1.data = []) →
      placeholderTokens (ParseSQLFilters (some m)).1.data = dollars 1 (m.length - nilCount m) ∧
      (placeholderTokens (ParseSQLFilters (some m)).1.data).Nodup ∧
      (placeholderTokens (ParseSQLFilters (some m)).1.data).length = m.length - nilCount m) ∧
    (placeholderTokens (ParseSQLFilters (some m)).1.data = dollars 1 (m.length - nilCount m) →
      ∀ e ∈ m, placeholderTokens e.1.data = []) := by
  have hlen : (boundValues m).length = m.length - nilCount m := by
    have := boundValues_length m
    omega
  have hfrag : placeholderTokens (ParseSQLFilters (some m)).1.data = fragmentTokens m 0 := by
    by_cases hm : m = []
    · subst hm; rfl
    · rw [ParseSQLFilters_some m hm]
      exact placeholderTokens_Join_predicates m 0
  have hargs : (ParseSQLFilters (some m)).2.1.length = m.length - nilCount m := by
    by_cases hm : m = []
    · subst hm; rfl
    · rw [ParseSQLFilters_some m hm]
      exact hlen
  have hiff := fragmentTokens_eq_dollars_iff m 0
  rw [Nat.zero_add, hlen] at hiff
  refine ⟨hargs, ?_, ?_⟩
  · intro hd
    have key : placeholderTokens (ParseSQLFilters (some m)).1.data =
        dollars 1 (m.length - nilCount m) := by
      rw [hfrag]; exact hiff.mpr hd
    refine ⟨key, ?_, ?_⟩
    · rw [key]; exact dollars_nodup _ _
    · rw [key]; simp [dollars]
  · intro h
    rw [hfrag] at h
    exact hiff.mp h

/-- C1, witness: the filters of the login flow. -/
theorem ParseSQLFilters_placeholders_witness :
    (∀ e ∈ [("email", Value.str "a@b.com"), ("deleted_at", Value.nil)],
      placeholderTokens e.1.data = []) ∧
    placeholderTokens
      (ParseSQLFilters (some [("email", Value.str "a@b.com"), ("deleted_at", Value.nil)])).1.data
      = dollars 1 (2 - 1) :=
  ⟨by decide,
    ((ParseSQLFilters_placeholders
      [("email", Value.str "a@b.com"), ("deleted_at", Value.nil)]).2.1 (by decide)).1⟩

/-- C1, counterexample: a mapping with the single field name `$5` and a non-nil value
has `n - k = 1`, yet the fragment is ` $5 = $1` and holds the placeholders `$5`, `$1`. -/
theorem ParseSQLFilters_placeholders_counterexample :
    (ParseSQLFilters (some [("$5", Value.int 1)])).1 = " $5 = $1" ∧
    placeholderTokens (ParseSQLFilters (some [("$5", Value.int 1)])).1.data = ["$5", "$1"] ∧
    placeholderTokens (ParseSQLFilters (some [("$5", Value.int 1)])).1.data ≠
      dollars 1 ([("$5", Value.int 1)].length - nilCount [("$5", Value.int 1)]) := by
  decide

/-- C4: for a non-empty filter mapping the fragment is the per-entry predicates joined
with ` AND`, it does not end in ` AND`, and the arguments are the non-nil values in
iteration order.  Entry `i` with a nil value gives ` field IS NULL` and binds nothing;
with a non-nil value it gives ` field = $k` and binds exactly that value, `k` being the
number of arguments bound once the entry is visited, and the argument at position `k`
is that value. -/
theorem ParseSQLFilters_joins_predicates (m : Filters) (hm : m ≠ []) :
    (ParseSQLFilters (some m)).1 = Join (predicates m 0) " AND" ∧
    ¬ (" AND".data <:+ (ParseSQLFilters (some m)).1.data) ∧
    (ParseSQLFilters (some m)).2.1 = boundValues m ∧
    ∀ (i : Nat) (h : i < m.length),
      (m[i].2 = Value.nil →
        (predicates m 0)[i]? = some (" " ++ m[i].1 ++ " IS NULL") ∧
        boundValues (m.take (i + 1)) = boundValues (m.take i)) ∧
      (m[i].2 ≠ Value.nil →
        (predicates m 0)[i]? = some
          (" " ++ m[i].1 ++ " = $" ++ Nat.repr (boundValues (m.take (i + 1))).length) ∧
        boundValues (m.take (i + 1)) = boundValues (m.take i) ++ [m[i].2] ∧
        (boundValues m)[(boundValues (m.take (i + 1))).length - 1]? = some m[i].2) := by
  rw [ParseSQLFilters_some m hm]
  refine ⟨rfl, ?_, rfl, ?_⟩
  · exact not_suffix_of_endsOff
      (endsOff_Join _ _ (predicates_ne_nil m hm 0) (endsOff_predicates m 0))
  · intro i h
    have hp := predicates_getElem? m 0 i h
    have ht := boundValues_take_succ m i h
    constructor
    · intro hv
      rw [if_pos hv] at hp ht
      exact ⟨hp, by simpa using ht⟩
    · intro hv
      rw [if_neg hv] at hp ht
      have hl : (boundValues (m.take (i + 1))).length = (boundValues (m.take i)).length + 1 := by
        rw [ht]; simp
      refine ⟨?_, ht, ?_⟩
      · rw [hp, hl, Nat.zero_add]
      · rw [hl, Nat.add_sub_cancel]
        exact boundValues_getElem? m i h hv

/-- C4, witness: the filters of the login flow. -/
theorem ParseSQLFilters_joins_predicates_witness :
    [("email", Value.str "a@b.com"), ("deleted_at", Value.nil)] ≠ [] ∧
    (ParseSQLFilters (some [("email", Value.str "a@b.com"), ("deleted_at", Value.nil)])).1 =
      Join (predicates [("email", Value.str "a@b.com"), ("deleted_at", Value.nil)] 0) " AND" :=
  ⟨by decide,
    (ParseSQLFilters_joins_predicates
      [("email", Value.str "a@b.com"), ("deleted_at", Value.nil)] (by decide)).1⟩


/-! ## Claims about the statement of `GetMany` -/

/-- C3, the code at the failing input: with no filters, `orderBy = "id"`, a limit and an
offset, `GetMany` binds three arguments but its statement holds only the placeholders
`$2` and `$3`; index 1 is skipped, because the ordering step appends the field name to
the arguments and writes no placeholder for it. -/
theorem GetMany_skips_placeholder (d : Deps) :
    GetManyQuery d "users" (some 10) (some 0) (some "id") none none =
      .ok ("SELECT * FROM users ORDER BY id LIMIT $2 OFFSET $3",
        [Value.str "id", Value.int 10, Value.int 0]) ∧
    placeholderTokens "SELECT * FROM users ORDER BY id LIMIT $2 OFFSET $3".data = ["$2", "$3"] ∧
    placeholderTokens "SELECT * FROM users ORDER BY id LIMIT $2 OFFSET $3".data ≠ dollars 1 3 ∧
    placeholderTokens "SELECT * FROM users ORDER BY id LIMIT $2 OFFSET $3".data ≠ dollars 1 2 :=
  ⟨rfl, by decide, by decide, by decide⟩

/-- C5: the statement text does not depend on the filter values.  Two filter mappings
with the same field names in the same iteration order that agree on which values are
nil give the same fragment, and `GetMany` builds the same statement from them for the
same table, ordering, limit and offset; the non-nil values are the argument list of
`ParseSQLFilters`. -/
theorem statement_independent_of_values (f₁ f₂ : Option Filters)
    (h : f₁.map shape = f₂.map shape) :
    (ParseSQLFilters f₁).1 = (ParseSQLFilters f₂).1 ∧
    (∀ (d : Deps) (tableName : String) (limit offset : Option Int)
        (orderBy orderingDirection : Option String),
      (GetManyQuery d tableName limit offset orderBy orderingDirection f₁).map Prod.fst =
        (GetManyQuery d tableName limit offset orderBy orderingDirection f₂).map Prod.fst) ∧
    (∀ m, f₁ = some m → (ParseSQLFilters f₁).2.1 = boundValues m) := by
  obtain ⟨hs, hl⟩ := ParseSQLFilters_shape f₁ f₂ h
  refine ⟨hs, ?_, ?_⟩
  · intro d tableName limit offset orderBy orderingDirection
    rw [GetManyQuery_sql, GetManyQuery_sql, hs, hl]
  · rintro m rfl
    by_cases hm : m = []
    · subst hm; rfl
    · rw [ParseSQLFilters_some m hm]

/-- C5, witness: the login filters for two different e-mail addresses. -/
theorem statement_independent_of_values_witness :
    (some [("email", Value.str "a@b.com"), ("deleted_at", Value.nil)]).map shape =
      (some [("email", Value.str "x' OR 1=1"), ("deleted_at", Value.nil)]).map shape ∧
    (ParseSQLFilters (some [("email", Value.str "a@b.com"), ("deleted_at", Value.nil)])).1 =
      (ParseSQLFilters (some [("email", Value.str "x' OR 1=1"), ("deleted_at", Value.nil)])).1 :=
  ⟨by decide,
    (statement_independent_of_values
      (some [("email", Value.str "a@b.com"), ("deleted_at", Value.nil)])
      (some [("email", Value.str "x' OR 1=1"), ("deleted_at", Value.nil)]) (by decide)).1⟩

/-- C6 (as amended): an absent or empty filter mapping gives the empty fragment and no
arguments, and the statement of `GetMany` is `SELECT * FROM <table>` followed by the
ordering, limit and offset clauses only, so with none of these it is exactly
`SELECT * FROM <table>`, for every table name.  That statement has no `WHERE` clause
when (and only when) neither the table name nor the `orderBy` field, if one is given,
contains the word `WHERE`.  For a non-empty filter mapping the fragment is not empty and
the statement is `SELECT * FROM <table>`, then ` WHERE`, then the fragment, then the
remaining clauses, and it has a `WHERE` clause.  `GetMany` hands the pool this
statement. -/
theorem GetMany_where_clause (d : Deps) (tableName : String) :
    ParseSQLFilters none = ("", [], none) ∧
    ParseSQLFilters (some []) = ("", [], none) ∧
    (∀ filters : Option Filters, filters = none ∨ filters = some [] →
      GetManyQuery d tableName none none none none filters =
        .ok ("SELECT * FROM " ++ tableName, []) ∧
      ∀ (limit offset : Option Int) (orderBy orderingDirection : Option String),
        (GetManyQuery d tableName limit offset orderBy orderingDirection filters).map Prod.fst =
          .ok ("SELECT * FROM " ++ tableName ++
            tailClauses 0 orderBy orderingDirection limit offset) ∧
        (mentionsWhere tableName.data = false →
          (∀ o, orderBy = some o → mentionsWhere o.data = false) →
          mentionsWhere ("SELECT * FROM " ++ tableName ++
            tailClauses 0 orderBy orderingDirection limit offset).data = false) ∧
        (mentionsWhere ("SELECT * FROM " ++ tableName ++
            tailClauses 0 orderBy orderingDirection limit offset).data = false →
          mentionsWhere tableName.data = false ∧
            ∀ o, orderBy = some o → mentionsWhere o.data = false)) ∧
    (∀ m : Filters, m ≠ [] →
      (ParseSQLFilters (some m)).1 ≠ "" ∧
      ∀ (limit offset : Option Int) (orderBy orderingDirection : Option String),
        (GetManyQuery d tableName limit offset orderBy orderingDirection (some m)).map Prod.fst =
          .ok ("SELECT * FROM " ++ tableName ++ (" WHERE" ++ (ParseSQLFilters (some m)).1) ++
            tailClauses (boundValues m).length orderBy orderingDirection limit offset) ∧
        mentionsWhere ("SELECT * FROM " ++ tableName ++
            (" WHERE" ++ (ParseSQLFilters (some m)).1) ++
            tailClauses (boundValues m).length orderBy orderingDirection limit offset).data =
          true) ∧
    (∀ (filters : Option Filters) (limit offset : Option Int)
        (orderBy orderingDirection : Option String) (sql : String) (args : List Value),
      GetManyQuery d tableName limit offset orderBy orderingDirection filters = .ok (sql, args) →
        (∀ e, d.Query sql args = .error e →
          GetMany d tableName limit offset orderBy orderingDirection filters =
            .error (Err.Errorf ("could not get records from " ++ tableName ++ " table: " ++ e))) ∧
        (∀ rows, d.Query sql args = .ok rows →
          GetMany d tableName limit offset orderBy orderingDirection filters =
            rowsLoop rows none)) := by
  refine ⟨rfl, rfl, ?_, ?_, ?_⟩
  · intro filters hf
    have hp : ParseSQLFilters filters = ("", [], none) := by
      rcases hf with rfl | rfl <;> rfl
    refine ⟨?_, ?_⟩
    · rw [GetManyQuery_eq, hp]; rfl
    · intro limit offset orderBy orderingDirection
      have hw := mentionsWhere_unfiltered tableName orderBy orderingDirection limit offset
      refine ⟨?_, ?_, ?_⟩
      · rw [GetManyQuery_sql, hp]
        rfl
      · intro ht ho
        rw [hw, ht, Bool.false_or]
        cases orderBy with
        | none => rfl
        | some o => exact ho o rfl
      · intro h
        rw [hw, Bool.or_eq_false_iff] at h
        refine ⟨h.1, ?_⟩
        rintro o rfl
        exact h.2
  · intro m hm
    have hne : (ParseSQLFilters (some m)).1 ≠ "" := by
      rw [ParseSQLFilters_some m hm]
      exact Join_predicates_ne_empty m hm
    refine ⟨hne, ?_⟩
    intro limit offset orderBy orderingDirection
    refine ⟨?_, mentionsWhere_filtered tableName m hm orderBy orderingDirection limit offset⟩
    rw [GetManyQuery_sql]
    simp only [whereStep, hne, if_true, ne_eq, not_false_eq_true]
    rw [ParseSQLFilters_some m hm]
  · intro filters limit offset orderBy orderingDirection sql args hq
    refine ⟨?_, ?_⟩
    · intro e he
      simp only [GetMany, hq, he]
    · intro rows hr
      simp only [GetMany, hq, hr]

/-- C6, witness: no filters and the login filters on the table `users`. -/
theorem GetMany_where_clause_witness :
    ((none : Option Filters) = none ∨ (none : Option Filters) = some []) ∧
    GetManyQuery ⟨fun _ => "", fun _ e => e, fun _ _ => .ok [], fun _ _ => .ok 0⟩
      "users" none none none none none = .ok ("SELECT * FROM " ++ "users", []) ∧
    mentionsWhere "users".data = false ∧
    (∀ o, (some "id" : Option String) = some o → mentionsWhere o.data = false) ∧
    mentionsWhere ("SELECT * FROM " ++ "users" ++
      tailClauses 0 (some "id") none (some 10) none).data = false ∧
    [("email", Value.str "a@b.com"), ("deleted_at", Value.nil)] ≠ [] ∧
    (ParseSQLFilters (some [("email", Value.str "a@b.com"), ("deleted_at", Value.nil)])).1 ≠ "" :=
  ⟨Or.inl rfl,
    ((GetMany_where_clause ⟨fun _ => "", fun _ e => e, fun _ _ => .ok [], fun _ _ => .ok 0⟩
      "users").2.2.1 none (Or.inl rfl)).1,
    by decide,
    by intro o h; cases h; decide,
    (((GetMany_where_clause ⟨fun _ => "", fun _ e => e, fun _ _ => .ok [], fun _ _ => .ok 0⟩
      "users").2.2.1 none (Or.inl rfl)).2 (some 10) none (some "id") none).2.1 (by decide)
        (by intro o h; cases h; decide),
    by decide,
    ((GetMany_where_clause ⟨fun _ => "", fun _ e => e, fun _ _ => .ok [], fun _ _ => .ok 0⟩
      "users").2.2.2.1 [("email", Value.str "a@b.com"), ("deleted_at", Value.nil)]
        (by decide)).1⟩

/-- C6, counterexample: with no filters and the table name `users WHERE 1=1` the
statement of `GetMany` is `SELECT * FROM users WHERE 1=1`, which has a `WHERE` clause. -/
theorem GetMany_where_clause_counterexample :
    GetManyQuery ⟨fun _ => "", fun _ e => e, fun _ _ => .ok [], fun _ _ => .ok 0⟩
      "users WHERE 1=1" none none none none none = .ok ("SELECT * FROM users WHERE 1=1", []) ∧
    mentionsWhere "SELECT * FROM users WHERE 1=1".data = true ∧
    mentionsWhere "users WHERE 1=1".data = true :=
  ⟨rfl, by decide, by decide⟩

/-- C10: `ParseSQLFilters` returns a nil error for every filter mapping, so `GetMany`
always reaches its query and never returns `ErrInvalidEntity`. -/
theorem ParseSQLFilters_never_fails (filters : Option Filters) :
    (ParseSQLFilters filters).2.2 = none ∧
    (∀ (d : Deps) (tableName : String) (limit offset : Option Int)
        (orderBy orderingDirection : Option String),
      (∃ q, GetManyQuery d tableName limit offset orderBy orderingDirection filters = .ok q) ∧
      ∀ msg, GetMany d tableName limit offset orderBy orderingDirection filters ≠
        .error (Err.ErrInvalidEntity msg)) := by
  refine ⟨ParseSQLFilters_error filters, ?_⟩
  intro d tableName limit offset orderBy orderingDirection
  refine ⟨⟨_, GetManyQuery_eq d tableName limit offset orderBy orderingDirection filters⟩, ?_⟩
  intro msg h
  unfold GetMany at h
  rw [GetManyQuery_eq] at h
  dsimp only at h
  split at h
  · simp at h
  · obtain ⟨t, ht⟩ := rowsLoop_error _ _ _ h
    simp at ht


/-! ## Claims about `placeholders`, `GetOne` and the refresh flow -/

/-- C7 (as amended): `placeholders(n)` is the empty text for `n < 1`; for `n >= 1` it is
`$1`, ..., `$n` joined with a comma and a blank, and read left to right it holds exactly
these `n` placeholders, each once.  `CreateOne` hands the pool the statement
`INSERT INTO <table> (<fields>) VALUES (<placeholders(len(values))>) RETURNING id;` with
`values` as arguments; its placeholders are those inside the table name, those inside
the field names, and `$1`, ..., `$len(values)`.  So the statement holds exactly
`len(values)` placeholders, `$1`, ..., `$len(values)`, when (and only when) neither the
table name nor a field name contains a `$` directly followed by a decimal digit. -/
theorem placeholders_spec (n : Int) :
    (n < 1 → placeholders n = "") ∧
    (1 ≤ n →
      placeholders n = Join (dollars 1 n.toNat) ", " ∧
      placeholderTokens (placeholders n).data = dollars 1 n.toNat ∧
      (placeholderTokens (placeholders n).data).Nodup ∧
      ((placeholderTokens (placeholders n).data).length : Int) = n) ∧
    (∀ (tableName : String) (fields : List String) (values : List Value),
      CreateOneSQL tableName fields values =
        "INSERT INTO " ++ tableName ++ " (" ++ Join fields ", " ++ ") VALUES ("
          ++ placeholders (values.length : Int) ++ ") RETURNING id;" ∧
      placeholderTokens (placeholders (values.length : Int)).data = dollars 1 values.length ∧
      (placeholderTokens (placeholders (values.length : Int)).data).length = values.length ∧
      placeholderTokens (CreateOneSQL tableName fields values).data =
        placeholderTokens tableName.data ++ namesTokens fields ++ dollars 1 values.length ∧
      (placeholderTokens tableName.data = [] →
        (∀ name ∈ fields, placeholderTokens name.data = []) →
        placeholderTokens (CreateOneSQL tableName fields values).data =
          dollars 1 values.length ∧
        (placeholderTokens (CreateOneSQL tableName fields values).data).Nodup ∧
        (placeholderTokens (CreateOneSQL tableName fields values).data).length =
          values.length) ∧
      (placeholderTokens (CreateOneSQL tableName fields values).data =
          dollars 1 values.length →
        placeholderTokens tableName.data = [] ∧
          ∀ name ∈ fields, placeholderTokens name.data = []) ∧
      ∀ d : Deps,
        (∀ id, d.QueryRow (CreateOneSQL tableName fields values) values = .ok id →
          CreateOne d tableName fields values = (id, none)) ∧
        (∀ e, d.QueryRow (CreateOneSQL tableName fields values) values = .error e →
          CreateOne d tableName fields values =
            (0, some (Err.ErrDbConflict
              ("could not insert into " ++ tableName ++ " table: " ++ e))))) := by
  refine ⟨?_, ?_, ?_⟩
  · intro h
    simp [placeholders, h]
  · intro h
    have ht : placeholderTokens (placeholders n).data = dollars 1 n.toNat := by
      rw [placeholders_eq_Join n h, placeholderTokens_dollars]
    refine ⟨placeholders_eq_Join n h, ht, ?_, ?_⟩
    · rw [ht]; exact dollars_nodup _ _
    · rw [ht]
      simp only [dollars, List.length_map, List.length_range']
      omega
  · intro tableName fields values
    have hiff := placeholderTokens_CreateOneSQL_iff tableName fields values
    refine ⟨rfl, placeholderTokens_placeholders _, ?_,
      placeholderTokens_CreateOneSQL tableName fields values, ?_, hiff.mp, ?_⟩
    · rw [placeholderTokens_placeholders]
      simp [dollars]
    · intro h1 h2
      have key := hiff.mpr ⟨h1, h2⟩
      refine ⟨key, ?_, ?_⟩
      · rw [key]; exact dollars_nodup _ _
      · rw [key]; simp [dollars]
    · intro d
      refine ⟨?_, ?_⟩
      · intro id h
        simp only [CreateOne, h]
      · intro e h
        simp only [CreateOne, h]

/-- C7, witness: a user row with two fields. -/
theorem placeholders_spec_witness :
    (1 : Int) ≤ 3 ∧ placeholders 3 = Join (dollars 1 (3 : Int).toNat) ", " ∧
    (0 : Int) < 1 ∧ placeholders 0 = "" ∧
    placeholderTokens "users".data = [] ∧
    (∀ name ∈ ["email", "password"], placeholderTokens name.data = []) ∧
    placeholderTokens
      (CreateOneSQL "users" ["email", "password"] [Value.str "a@b.com", Value.str "h"]).data =
      dollars 1 2 :=
  ⟨by decide, ((placeholders_spec 3).2.1 (by decide)).1, by decide,
    (placeholders_spec 0).1 (by decide), by decide, by decide,
    (((placeholders_spec 0).2.2 "users" ["email", "password"]
      [Value.str "a@b.com", Value.str "h"]).2.2.2.2.1 (by decide) (by decide)).1⟩

/-- C7, counterexample: with the field name `$2` and one value the statement of
`CreateOne` holds two placeholders, `$2` and `$1`, not the single placeholder `$1`. -/
theorem CreateOne_placeholders_counterexample :
    CreateOneSQL "users" ["$2"] [Value.int 1] =
      "INSERT INTO users ($2) VALUES ($1) RETURNING id;" ∧
    placeholderTokens (CreateOneSQL "users" ["$2"] [Value.int 1]).data = ["$2", "$1"] ∧
    (placeholderTokens (CreateOneSQL "users" ["$2"] [Value.int 1]).data).length ≠
      [Value.int 1].length ∧
    placeholderTokens (CreateOneSQL "users" ["$2"] [Value.int 1]).data ≠
      dollars 1 [Value.int 1].length := by
  decide

/-- C2: when the `GetMany` call of `GetOne` succeeds with a list of records, `GetOne`
fails with `ErrNotFound` if the list has no record (nil or empty), returns the record
and no error if the list has exactly one, and fails with `ErrMultipleEntries` if it has
two or more, so it never returns the first of several records. -/
theorem GetOne_exactly_one (d : Deps) (tableName : String) (filters : Option Filters)
    (records : Option (List Record))
    (h : GetMany d tableName none none none none filters = .ok records) :
    (len records = 0 → GetOne d tableName filters =
      some (.error (Err.ErrNotFound "got no records according filters."))) ∧
    (∀ r, records = some [r] → GetOne d tableName filters = some (.ok r)) ∧
    (2 ≤ len records → GetOne d tableName filters =
      some (.error
        (Err.ErrMultipleEntries "got multiple records according filters, but expected 1."))) ∧
    (2 ≤ len records → ∀ r, GetOne d tableName filters ≠ some (.ok r)) := by
  unfold GetOne
  rw [h]
  refine ⟨?_, ?_, ?_, ?_⟩
  · intro h0
    simp [expectOne, h0]
  · rintro r rfl
    simp [expectOne, len]
  · intro h2
    have h0 : len records ≠ 0 := by omega
    have h1 : len records > 1 := by omega
    simp [expectOne, h0, h1]
  · intro h2 r
    have h0 : len records ≠ 0 := by omega
    have h1 : len records > 1 := by omega
    simp [expectOne, h0, h1]

/-- C2, witness: a pool that answers every query with the single row `id = 1`. -/
theorem GetOne_exactly_one_witness :
    GetMany ⟨fun _ => "", fun _ e => e, fun _ _ => .ok [.ok [("id", Value.int 1)]],
        fun _ _ => .ok 0⟩ "users" none none none none
        (some [("email", Value.str "a@b.com"), ("deleted_at", Value.nil)]) =
      .ok (some [[("id", Value.int 1)]]) ∧
    GetOne ⟨fun _ => "", fun _ e => e, fun _ _ => .ok [.ok [("id", Value.int 1)]],
        fun _ _ => .ok 0⟩ "users"
        (some [("email", Value.str "a@b.com"), ("deleted_at", Value.nil)]) =
      some (.ok [("id", Value.int 1)]) :=
  ⟨rfl,
    (GetOne_exactly_one ⟨fun _ => "", fun _ e => e, fun _ _ => .ok [.ok [("id", Value.int 1)]],
        fun _ _ => .ok 0⟩ "users"
        (some [("email", Value.str "a@b.com"), ("deleted_at", Value.nil)])
        (some [[("id", Value.int 1)]]) rfl).2.1 _ rfl⟩

/-- C8: in `updateUserSessionAndGenerateTokens`, a rotation that fails with
`ErrNotFound` makes the flow fail with `ErrUnauthorized`; a rotation that fails with any
other error makes the flow return that same error; a rotation that succeeds with a
number of rows other than one makes the flow fail; in each case neither an access token
nor a cookie is returned. -/
theorem refresh_rotation_failures {Request Session TokenResponse Cookie DeviceInfo Time : Type}
    (d : RefreshDeps Request Session TokenResponse Cookie DeviceInfo Time)
    (r : Request) (sessionToken : String) (userId : Int) :
    (∀ (sessions : Option (List Session)) (msg : String),
      d.OptimizedUpdateWithUserChecking (newExpiresAt d) sessionToken =
          (sessions, some (Err.ErrNotFound msg)) →
        updateUserSessionAndGenerateTokens d r sessionToken userId =
          some (none, none, some (Err.ErrUnauthorized "Session for user was not found."))) ∧
    (∀ (sessions : Option (List Session)) (err : Err),
      d.OptimizedUpdateWithUserChecking (newExpiresAt d) sessionToken = (sessions, some err) →
        (∀ msg, err ≠ Err.ErrNotFound msg) →
        updateUserSessionAndGenerateTokens d r sessionToken userId =
          some (none, none, some err)) ∧
    (∀ sessions : List Session,
      d.OptimizedUpdateWithUserChecking (newExpiresAt d) sessionToken = (some sessions, none) →
        sessions.length ≠ 1 →
        updateUserSessionAndGenerateTokens d r sessionToken userId =
          some (none, none,
            some (Err.Errorf "Found unexpected user session, please log in again."))) := by
  refine ⟨?_, ?_, ?_⟩
  · intro sessions msg h
    simp only [updateUserSessionAndGenerateTokens, h]
  · intro sessions err h hne
    cases err with
    | ErrNotFound m => exact absurd rfl (hne m)
    | _ => simp only [updateUserSessionAndGenerateTokens, h]
  · intro sessions h hlen
    simp only [updateUserSessionAndGenerateTokens, h, hlen, ne_eq, not_false_eq_true, if_true]

/-- C8, witness: a rotation that finds no session. -/
theorem refresh_rotation_failures_witness :
    refreshNotFound.OptimizedUpdateWithUserChecking (newExpiresAt refreshNotFound) "token" =
      (none, some (Err.ErrNotFound "no session")) ∧
    updateUserSessionAndGenerateTokens refreshNotFound () "token" 1 =
      some (none, none, some (Err.ErrUnauthorized "Session for user was not found.")) :=
  ⟨rfl, (refresh_rotation_failures refreshNotFound () "token" 1).1 none "no session" rfl⟩

end FastAuthService
